import Mathlib

/-!
Verification of the hammersbald storage-engine types layer (`src/types.rs`:
48-bit `Offset`, 24-bit `U24`) and of the spec-level batch-commit and
hash-index contracts.  Byte buffers are modelled as `List Nat` whose elements
are below 256 where this matters; `u64`/`usize` values are `Nat` with the
source's bit-masking made explicit.  A Rust function that can panic via an
unconditional `unwrap()` is modelled as returning `Option`, `none` standing
for the panic.
-/

/-- Modelled from the spec: `PAGE_SIZE` is the fixed compile-time page size
shared by all file regions.  The `page` module is not among the included
sources; the upstream repository defines the constant as 4096. -/
def PAGE_SIZE : Nat := 4096

/-- Pointer to persistent data, `pub struct Offset(u64)` in `types.rs`.
The wrapped value is a plain natural number; the 48-bit invariant is
established by the constructors, not by the type. -/
structure Offset where
  val : Nat
deriving DecidableEq, Repr

/-- The source's `impl From<u64> for Offset`: `Offset(n & 0xffffffffffff)`. -/
def Offset.fromU64 (n : Nat) : Offset :=
  ⟨n &&& 0xffffffffffff⟩

/-- The source's `Offset::as_u64`: returns the wrapped value. -/
def Offset.as_u64 (o : Offset) : Nat := o.val

/-- `byteorder`'s `read_u48::<BigEndian>` on a byte slice: the first six
bytes as a big-endian integer; `none` models the `Err` (unexpected EOF)
returned when fewer than six bytes are available. -/
def readU48BE (s : List Nat) : Option Nat :=
  match s with
  | b0 :: b1 :: b2 :: b3 :: b4 :: b5 :: _ =>
      some (b0 * 2 ^ 40 + b1 * 2 ^ 32 + b2 * 2 ^ 24 + b3 * 2 ^ 16 + b4 * 2 ^ 8 + b5)
  | _ => none

/-- The source's `impl From<&[u8]> for Offset`:
`Offset::from(Cursor::new(slice).read_u48::<BigEndian>().unwrap())`.
The `unwrap` panics on a slice shorter than six bytes; `none` models that
panic. -/
def Offset.fromSlice (s : List Nat) : Option Offset :=
  match readU48BE s with
  | some n => some (Offset.fromU64 n)
  | none => none

/-- The source's `OffsetReader for Cursor<Vec<u8>>`: reads six bytes at the
cursor position and applies the raw constructor `Offset(..)` (no masking),
advancing the cursor; `none` models the unwrap panic on a short read. -/
def readOffset (buf : List Nat) (pos : Nat) : Option (Offset × Nat) :=
  match readU48BE (buf.drop pos) with
  | some n => some (⟨n⟩, pos + 6)
  | none => none

/-- The source's `Offset::to_vec`: serializes with `write_u48::<BigEndian>`,
which panics (here `none`) when the value does not fit in six bytes. -/
def Offset.to_vec (o : Offset) : Option (List Nat) :=
  if o.val < 2 ^ 48 then
    some [o.val / 2 ^ 40 % 256, o.val / 2 ^ 32 % 256, o.val / 2 ^ 24 % 256,
          o.val / 2 ^ 16 % 256, o.val / 2 ^ 8 % 256, o.val % 256]
  else none

/-- The source's `Offset::this_page`:
`Offset::from((self.0 / PAGE_SIZE) * PAGE_SIZE)`. -/
def Offset.this_page (o : Offset) : Offset :=
  Offset.fromU64 (o.val / PAGE_SIZE * PAGE_SIZE)

/-- The source's `Offset::next_page`:
`Offset::from((self.0 / PAGE_SIZE + 1) * PAGE_SIZE)`. -/
def Offset.next_page (o : Offset) : Offset :=
  Offset.fromU64 ((o.val / PAGE_SIZE + 1) * PAGE_SIZE)

/-- The source's `Offset::page_number`: `self.0 / PAGE_SIZE`. -/
def Offset.page_number (o : Offset) : Nat := o.val / PAGE_SIZE

/-- The source's `Offset::in_page_pos`:
`self.0 - (self.0 / PAGE_SIZE) * PAGE_SIZE`. -/
def Offset.in_page_pos (o : Offset) : Nat :=
  o.val - o.val / PAGE_SIZE * PAGE_SIZE

/-- The source's `impl Ord for Offset`: `self.0.cmp(&other.0)`, the numeric
comparison of the wrapped values. -/
def Offset.cmp (a b : Offset) : Ordering := compare a.val b.val

/-- The source's `impl PartialOrd for Offset`:
`self.0.partial_cmp(&other.0)`, which on `u64` is always `Some` of the total
comparison. -/
def Offset.pcmp (a b : Offset) : Option Ordering := some (compare a.val b.val)

/-- `pub(crate) struct U24(usize)` in `types.rs`. -/
structure U24 where
  val : Nat
deriving DecidableEq, Repr

/-- The source's `impl From<usize> for U24`: `U24(n & 0xffffff)` — high bits
are silently discarded. -/
def U24.fromUsize (n : Nat) : U24 :=
  ⟨n &&& 0xffffff⟩

/-- `byteorder`'s `read_u24::<BigEndian>`: the first three bytes as a
big-endian integer, `none` on a shorter slice. -/
def readU24BE (s : List Nat) : Option Nat :=
  match s with
  | b0 :: b1 :: b2 :: _ => some (b0 * 2 ^ 16 + b1 * 2 ^ 8 + b2)
  | _ => none

/-- The source's `impl From<&[u8]> for U24`; `none` models the unwrap panic
on a short slice. -/
def U24.fromSlice (s : List Nat) : Option U24 :=
  match readU24BE s with
  | some n => some (U24.fromUsize n)
  | none => none

/-- The source's `U24::as_usize`. -/
def U24.as_usize (u : U24) : Nat := u.val

/-- The source's `U24::serialize`: casts the value to `u32` (truncating at
2^32) and writes it with `write_u24::<BigEndian>`, which panics (here `none`)
when the cast value needs more than three bytes. -/
def U24.serialize (u : U24) : Option (List Nat) :=
  if u.val % 2 ^ 32 < 2 ^ 24 then
    some [u.val % 2 ^ 32 / 2 ^ 16 % 256, u.val % 2 ^ 32 / 2 ^ 8 % 256, u.val % 2 ^ 32 % 256]
  else none

/-- The 48-bit mask of the `Offset` constructor is reduction modulo `2^48`. -/
theorem Offset.fromU64_val (n : Nat) : (Offset.fromU64 n).val = n % 2 ^ 48 := by
  show n &&& 0xffffffffffff = n % 2 ^ 48
  have h : (0xffffffffffff : Nat) = 2 ^ 48 - 1 := by norm_num
  rw [h]
  exact Nat.and_pow_two_sub_one_eq_mod n 48

/-- The 24-bit mask of the `U24` constructor is reduction modulo `2^24`. -/
theorem U24.fromUsize_val (n : Nat) : (U24.fromUsize n).val = n % 2 ^ 24 := by
  show n &&& 0xffffff = n % 2 ^ 24
  have h : (0xffffff : Nat) = 2 ^ 24 - 1 := by norm_num
  rw [h]
  exact Nat.and_pow_two_sub_one_eq_mod n 24

/-- Serializing then decoding is the identity on values below `2^48`. -/
theorem Offset.to_vec_decodes (n : Nat) (h : n < 2 ^ 48) :
    (Offset.mk n).to_vec.bind Offset.fromSlice = some (Offset.mk n) := by
  have hrec : (n / 2 ^ 40 % 256) * 2 ^ 40 + (n / 2 ^ 32 % 256) * 2 ^ 32
      + (n / 2 ^ 24 % 256) * 2 ^ 24 + (n / 2 ^ 16 % 256) * 2 ^ 16
      + (n / 2 ^ 8 % 256) * 2 ^ 8 + n % 256 = n := by omega
  simp only [Offset.to_vec, h, if_true, Offset.fromSlice, readU48BE, Offset.fromU64,
    Option.some_bind, Option.some.injEq, Offset.mk.injEq]
  have hmask : ∀ m : Nat, m &&& 281474976710655 = m % 2 ^ 48 := by
    intro m
    have he : (281474976710655 : Nat) = 2 ^ 48 - 1 := by norm_num
    rw [he]
    exact Nat.and_pow_two_sub_one_eq_mod m 48
  rw [hmask]
  omega

/-- Claim C1: decoding the six-byte big-endian encoding of the offset built
from any `u64` value `v` yields exactly the 48-bit-masked value:
`Offset::to_vec` followed by `Offset::from` on the bytes is the identity on
48-bit-masked values. -/
theorem offset_roundtrip (v : Nat) :
    ((Offset.fromU64 (v % 2 ^ 48)).to_vec.bind Offset.fromSlice).map Offset.as_u64
      = some (v % 2 ^ 48) := by
  have hlt : v % 2 ^ 48 < 2 ^ 48 := Nat.mod_lt _ (by norm_num)
  have hval : Offset.fromU64 (v % 2 ^ 48) = Offset.mk (v % 2 ^ 48) := by
    have h1 := Offset.fromU64_val (v % 2 ^ 48)
    have h3 : v % 2 ^ 48 % 2 ^ 48 = v % 2 ^ 48 := by omega
    show Offset.mk ((v % 2 ^ 48) &&& 0xffffffffffff) = Offset.mk (v % 2 ^ 48)
    have h2 : (v % 2 ^ 48) &&& 0xffffffffffff = v % 2 ^ 48 := by
      simp only [Offset.fromU64] at h1
      rw [h1, h3]
    rw [h2]
  rw [hval, Offset.to_vec_decodes _ hlt]
  rfl

/-- Claim C6: constructing an `Offset` from any `u64` masks to the low 48
bits — the result equals the value modulo `2^48`, so it is always below
`2^48`; high bits are silently discarded, not an error. -/
theorem offset_construction_masks (n : Nat) :
    (Offset.fromU64 n).as_u64 = n % 2 ^ 48 ∧ (Offset.fromU64 n).as_u64 < 2 ^ 48 := by
  constructor
  · exact Offset.fromU64_val n
  · rw [show (Offset.fromU64 n).as_u64 = (Offset.fromU64 n).val from rfl,
      Offset.fromU64_val]
    exact Nat.mod_lt _ (by norm_num)

/-- Claim C7: `page_number` is division of the offset value by `PAGE_SIZE`,
`in_page_pos` is the remainder (so they recompose the value and the position
is below `PAGE_SIZE`), and `this_page` rounds down to the page boundary. -/
theorem offset_page_arith (o : Offset) (h : o.as_u64 < 2 ^ 48) :
    o.page_number = o.as_u64 / PAGE_SIZE ∧
    o.in_page_pos = o.as_u64 % PAGE_SIZE ∧
    o.page_number * PAGE_SIZE + o.in_page_pos = o.as_u64 ∧
    o.in_page_pos < PAGE_SIZE ∧
    o.this_page.as_u64 = o.page_number * PAGE_SIZE := by
  obtain ⟨n⟩ := o
  simp only [Offset.as_u64] at h
  simp only [Offset.page_number, Offset.in_page_pos, Offset.this_page, Offset.as_u64,
    true_and]
  rw [Offset.fromU64_val]
  simp only [PAGE_SIZE]
  omega

/-- Witness for C7 at the concrete offset 10000. -/
theorem offset_page_arith_witness :
    (Offset.mk 10000).as_u64 < 2 ^ 48 ∧
    ((Offset.mk 10000).page_number = (Offset.mk 10000).as_u64 / PAGE_SIZE ∧
     (Offset.mk 10000).in_page_pos = (Offset.mk 10000).as_u64 % PAGE_SIZE ∧
     (Offset.mk 10000).page_number * PAGE_SIZE + (Offset.mk 10000).in_page_pos
        = (Offset.mk 10000).as_u64 ∧
     (Offset.mk 10000).in_page_pos < PAGE_SIZE ∧
     (Offset.mk 10000).this_page.as_u64 = (Offset.mk 10000).page_number * PAGE_SIZE) :=
  ⟨by norm_num [Offset.as_u64],
   offset_page_arith (Offset.mk 10000) (by norm_num [Offset.as_u64])⟩

/-- Counterexample to claim C4 as stated: at the last 48-bit page the masked
constructor makes `next_page` wrap to 0, so the offset `2^48 - 1` is NOT
below its `next_page`. -/
theorem page_bounds_cex :
    ¬ ((Offset.fromU64 (2 ^ 48 - 1)).as_u64
        < ((Offset.fromU64 (2 ^ 48 - 1)).next_page).as_u64) := by
  have hv : (Offset.fromU64 (2 ^ 48 - 1)).val = 2 ^ 48 - 1 := by
    rw [Offset.fromU64_val]
    norm_num
  have hn : ((Offset.fromU64 (2 ^ 48 - 1)).next_page).val = 0 := by
    simp only [Offset.next_page, hv, PAGE_SIZE]
    rw [Offset.fromU64_val]
    norm_num
  simp only [Offset.as_u64, hv, hn]
  omega

/-- Claim C4 (amended): for every offset outside the last 48-bit page
(`as_u64 + PAGE_SIZE < 2^48`), `this_page o ≤ o < next_page o` and
`next_page o − this_page o = PAGE_SIZE`; on the last page `next_page` wraps
to 0 through the 48-bit-masking constructor, falsifying the original claim. -/
theorem page_bounds (o : Offset) (h : o.as_u64 + PAGE_SIZE < 2 ^ 48) :
    o.this_page.as_u64 ≤ o.as_u64 ∧ o.as_u64 < o.next_page.as_u64 ∧
    o.next_page.as_u64 - o.this_page.as_u64 = PAGE_SIZE := by
  obtain ⟨n⟩ := o
  simp only [Offset.as_u64, PAGE_SIZE] at h
  simp only [Offset.this_page, Offset.next_page, Offset.as_u64]
  rw [Offset.fromU64_val, Offset.fromU64_val]
  simp only [PAGE_SIZE]
  omega

/-- Witness for the amended C4 at the concrete offset 5000. -/
theorem page_bounds_witness :
    (Offset.mk 5000).as_u64 + PAGE_SIZE < 2 ^ 48 ∧
    ((Offset.mk 5000).this_page.as_u64 ≤ (Offset.mk 5000).as_u64 ∧
     (Offset.mk 5000).as_u64 < (Offset.mk 5000).next_page.as_u64 ∧
     (Offset.mk 5000).next_page.as_u64 - (Offset.mk 5000).this_page.as_u64 = PAGE_SIZE) :=
  ⟨by norm_num [Offset.as_u64, PAGE_SIZE],
   page_bounds (Offset.mk 5000) (by norm_num [Offset.as_u64, PAGE_SIZE])⟩

/-- Claim C8: `Offset` comparison is the numeric order on the wrapped
values and a total order: `cmp` agrees with numeric `compare`, `partial_cmp`
always returns `Some`, `cmp = eq` coincides with equality, `lt` with the
strict numeric order, `gt` is the reverse of `lt`, and `lt` is transitive. -/
theorem offset_order (a b c : Offset) :
    (Offset.cmp a b = compare a.as_u64 b.as_u64) ∧
    (Offset.pcmp a b = some (Offset.cmp a b)) ∧
    (Offset.cmp a b = Ordering.eq ↔ a = b) ∧
    (Offset.cmp a b = Ordering.lt ↔ a.as_u64 < b.as_u64) ∧
    (Offset.cmp a b = Ordering.gt ↔ Offset.cmp b a = Ordering.lt) ∧
    (Offset.cmp a b = Ordering.lt → Offset.cmp b c = Ordering.lt →
      Offset.cmp a c = Ordering.lt) := by
  obtain ⟨x⟩ := a
  obtain ⟨y⟩ := b
  obtain ⟨z⟩ := c
  simp only [Offset.cmp, Offset.pcmp, Offset.as_u64, Offset.mk.injEq]
  refine ⟨trivial, trivial, ?_, ?_, ?_, ?_⟩
  · exact Nat.compare_eq_eq
  · exact Nat.compare_eq_lt
  · rw [Nat.compare_eq_gt, Nat.compare_eq_lt]
  · rw [Nat.compare_eq_lt, Nat.compare_eq_lt, Nat.compare_eq_lt]
    omega

/-- Witness for C8 at the concrete offsets 1, 2, 3. -/
theorem offset_order_witness :
    (Offset.cmp (Offset.mk 1) (Offset.mk 2)
        = compare (Offset.mk 1).as_u64 (Offset.mk 2).as_u64) ∧
    (Offset.pcmp (Offset.mk 1) (Offset.mk 2)
        = some (Offset.cmp (Offset.mk 1) (Offset.mk 2))) ∧
    (Offset.cmp (Offset.mk 1) (Offset.mk 2) = Ordering.eq ↔ Offset.mk 1 = Offset.mk 2) ∧
    (Offset.cmp (Offset.mk 1) (Offset.mk 2) = Ordering.lt ↔
        (Offset.mk 1).as_u64 < (Offset.mk 2).as_u64) ∧
    (Offset.cmp (Offset.mk 1) (Offset.mk 2) = Ordering.gt ↔
        Offset.cmp (Offset.mk 2) (Offset.mk 1) = Ordering.lt) ∧
    (Offset.cmp (Offset.mk 1) (Offset.mk 2) = Ordering.lt →
        Offset.cmp (Offset.mk 2) (Offset.mk 3) = Ordering.lt →
        Offset.cmp (Offset.mk 1) (Offset.mk 3) = Ordering.lt) :=
  offset_order (Offset.mk 1) (Offset.mk 2) (Offset.mk 3)

/-- Serializing then decoding is the identity on values below `2^24`. -/
theorem U24.serialize_decodes (n : Nat) (h : n < 2 ^ 24) :
    ((U24.mk n).serialize.bind U24.fromSlice).map U24.as_usize = some n := by
  have hx : n % 2 ^ 32 = n := Nat.mod_eq_of_lt (by omega)
  simp only [U24.serialize, hx, h, if_true, U24.fromSlice, readU24BE, U24.fromUsize,
    Option.some_bind, Option.map_some, U24.as_usize, Option.some.injEq]
  have hmask : ∀ m : Nat, m &&& 16777215 = m % 2 ^ 24 := by
    intro m
    have he : (16777215 : Nat) = 2 ^ 24 - 1 := by norm_num
    rw [he]
    exact Nat.and_pow_two_sub_one_eq_mod m 24
  rw [hmask]
  simp only [Option.map, U24.as_usize, Option.some.injEq]
  omega

/-- Claim C2 (code behavior): `U24::from` does NOT fail on an oversized
size — `2^24` is silently truncated to 0 instead of raising a
CapacityError; for sizes within `2^24 − 1` the encode/decode round trip is
the identity. -/
theorem size_roundtrip_and_truncation :
    U24.fromUsize (2 ^ 24) = U24.mk 0 ∧
    ∀ s : Nat, s ≤ 2 ^ 24 - 1 →
      ((U24.fromUsize s).serialize.bind U24.fromSlice).map U24.as_usize = some s := by
  constructor
  · have h := U24.fromUsize_val (2 ^ 24)
    show U24.mk ((2 ^ 24) &&& 0xffffff) = U24.mk 0
    simp only [U24.fromUsize] at h
    rw [h]
    norm_num
  · intro s hs
    have h1 : U24.fromUsize s = U24.mk s := by
      show U24.mk (s &&& 0xffffff) = U24.mk s
      have h2 := U24.fromUsize_val s
      simp only [U24.fromUsize] at h2
      rw [h2, Nat.mod_eq_of_lt (by omega)]
    rw [h1]
    exact U24.serialize_decodes s (by omega)

/-- Witness for C2's round-trip part at the concrete size 300. -/
theorem size_roundtrip_witness :
    (300 : Nat) ≤ 2 ^ 24 - 1 ∧
    ((U24.fromUsize 300).serialize.bind U24.fromSlice).map U24.as_usize = some 300 :=
  ⟨by norm_num, size_roundtrip_and_truncation.2 300 (by norm_num)⟩

/-- Claim C3 (code behavior at the failing input): decoding an offset from a
three-byte buffer panics through the unconditional `unwrap` (modelled as
`none`) both in `From<&[u8]>` and in `read_offset`, instead of returning a
FormatError to the caller as the spec demands. -/
theorem short_offset_decode_panics :
    Offset.fromSlice [1, 2, 3] = none ∧ readOffset [1, 2, 3] 0 = none :=
  ⟨rfl, rfl⟩

/-- A successful six-byte big-endian read of bytes below 256 is below `2^48`. -/
theorem readU48BE_lt (s : List Nat) (n : Nat) (hb : ∀ b ∈ s, b < 256)
    (h : readU48BE s = some n) : n < 2 ^ 48 := by
  match s with
  | [] | [_] | [_, _] | [_, _, _] | [_, _, _, _] | [_, _, _, _, _] =>
    simp [readU48BE] at h
  | b0 :: b1 :: b2 :: b3 :: b4 :: b5 :: rest =>
    simp only [readU48BE, Option.some.injEq] at h
    have h0 : b0 < 256 := hb b0 (by simp)
    have h1 : b1 < 256 := hb b1 (by simp)
    have h2 : b2 < 256 := hb b2 (by simp)
    have h3 : b3 < 256 := hb b3 (by simp)
    have h4 : b4 < 256 := hb b4 (by simp)
    have h5 : b5 < 256 := hb b5 (by simp)
    omega

/-- Claim C10: every Offset-producing operation — construction from `u64`,
decoding from a slice, `read_offset` from a cursor over bytes, `this_page`,
`next_page` — yields a value below `2^48`, and `to_vec` therefore always
succeeds with exactly six bytes on such offsets. -/
theorem offset_invariant :
    (∀ n : Nat, (Offset.fromU64 n).as_u64 < 2 ^ 48) ∧
    (∀ s : List Nat, ∀ o : Offset, Offset.fromSlice s = some o → o.as_u64 < 2 ^ 48) ∧
    (∀ buf : List Nat, ∀ pos : Nat, ∀ o : Offset, ∀ p2 : Nat,
      (∀ b ∈ buf, b < 256) → readOffset buf pos = some (o, p2) → o.as_u64 < 2 ^ 48) ∧
    (∀ o : Offset, o.this_page.as_u64 < 2 ^ 48 ∧ o.next_page.as_u64 < 2 ^ 48) ∧
    (∀ o : Offset, o.as_u64 < 2 ^ 48 → ∃ bs, o.to_vec = some bs ∧ bs.length = 6) := by
  have hfrom : ∀ n : Nat, (Offset.fromU64 n).as_u64 < 2 ^ 48 := by
    intro n
    rw [show (Offset.fromU64 n).as_u64 = (Offset.fromU64 n).val from rfl,
      Offset.fromU64_val]
    exact Nat.mod_lt _ (by norm_num)
  refine ⟨hfrom, ?_, ?_, ?_, ?_⟩
  · intro s o h
    simp only [Offset.fromSlice] at h
    cases hr : readU48BE s with
    | none => rw [hr] at h; exact absurd h (by simp)
    | some n =>
      rw [hr] at h
      simp only [Option.some.injEq] at h
      rw [← h]
      exact hfrom n
  · intro buf pos o p2 hb h
    simp only [readOffset] at h
    cases hr : readU48BE (buf.drop pos) with
    | none => rw [hr] at h; exact absurd h (by simp)
    | some n =>
      rw [hr] at h
      simp only [Option.some.injEq, Prod.mk.injEq] at h
      have hlt := readU48BE_lt _ n (fun b hbm => hb b (List.drop_subset pos buf hbm)) hr
      rw [← h.1]
      exact hlt
  · intro o
    exact ⟨hfrom _, hfrom _⟩
  · intro o h
    refine ⟨[o.val / 2 ^ 40 % 256, o.val / 2 ^ 32 % 256, o.val / 2 ^ 24 % 256,
      o.val / 2 ^ 16 % 256, o.val / 2 ^ 8 % 256, o.val % 256], ?_, rfl⟩
    simp only [Offset.as_u64] at h
    simp only [Offset.to_vec]
    rw [if_pos (by omega)]

/-- Witness for C10: a constructor instance and a concrete `to_vec` success. -/
theorem offset_invariant_witness :
    (Offset.fromU64 (2 ^ 50)).as_u64 < 2 ^ 48 ∧
    (∃ bs, (Offset.mk 7).to_vec = some bs ∧ bs.length = 6) :=
  ⟨offset_invariant.1 (2 ^ 50),
   offset_invariant.2.2.2.2 (Offset.mk 7) (by norm_num [Offset.as_u64])⟩

/-- Modelled from the spec: the durability state seen by the batch
committer (the batch committer and paged-file code are not among the
included sources).  `dataStaged` is the staged end of the append-only data
log, `dataDurable` the durably flushed prefix, `indexStaged` and
`indexDurable` the record offsets referenced by the staged and the durable
hash index, and `endDurable` the persisted end-of-log offset. -/
structure LogState where
  dataStaged : Nat
  dataDurable : Nat
  indexStaged : List Nat
  indexDurable : List Nat
  endDurable : Nat
deriving DecidableEq, Repr

/-- Modelled from the spec: `put` appends a record of length `len` at the
staged end of the data log and stages an index entry pointing at it. -/
def LogState.put (s : LogState) (len : Nat) : LogState :=
  { s with dataStaged := s.dataStaged + len,
           indexStaged := s.dataStaged :: s.indexStaged }

/-- Modelled from the spec: batch step (1), flush all pending data-log
pages to stable storage. -/
def LogState.flushData (s : LogState) : LogState :=
  { s with dataDurable := s.dataStaged }

/-- Modelled from the spec: batch step (2), flush all pending hash-index
pages to stable storage. -/
def LogState.flushIndex (s : LogState) : LogState :=
  { s with indexDurable := s.indexStaged }

/-- Modelled from the spec: batch step (3), persist the end-of-log offset. -/
def LogState.persistEnd (s : LogState) : LogState :=
  { s with endDurable := s.dataStaged }

/-- Modelled from the spec: `batch()` runs the three steps strictly in the
order data, index, end offset; `batchSteps s k` is the durable state
recovered when a crash interrupts the batch after its first `k` steps. -/
def LogState.batchSteps (s : LogState) : Nat → LogState
  | 0 => s
  | 1 => s.flushData
  | 2 => s.flushData.flushIndex
  | _ + 3 => s.flushData.flushIndex.persistEnd

/-- Every offset the durable index references lies inside the durable part
of the data log. -/
def LogState.indexSafe (s : LogState) : Prop :=
  ∀ o ∈ s.indexDurable, o < s.dataDurable

/-- Well-formedness maintained by the session: the staged index references
only staged data, the durable data prefix is within the staged log, and the
durable index is safe. -/
def LogState.WF (s : LogState) : Prop :=
  (∀ o ∈ s.indexStaged, o < s.dataStaged) ∧
  s.dataDurable ≤ s.dataStaged ∧ s.indexSafe

instance (s : LogState) : Decidable s.indexSafe := by
  unfold LogState.indexSafe
  infer_instance

instance (s : LogState) : Decidable s.WF := by
  unfold LogState.WF
  infer_instance

/-- Claim C5: the strictly ordered batch protocol keeps the durable index
safe at every crash point — after a crash interrupting `batch()` after any
number of completed steps, the recovered index never references an offset
that is not durably present in the data log; moreover `put` (with a
positive record length) and a completed batch preserve well-formedness. -/
theorem batch_crash_safe (s : LogState) (h : s.WF) :
    (∀ k : Nat, (s.batchSteps k).indexSafe) ∧
    (∀ len : Nat, 0 < len → (s.put len).WF) ∧
    (s.batchSteps 3).WF := by
  obtain ⟨hstaged, hle, hsafe⟩ := h
  have hflush : ∀ k : Nat, (s.batchSteps k).indexSafe := by
    intro k
    match k with
    | 0 => exact hsafe
    | 1 =>
      intro o ho
      exact lt_of_lt_of_le (hsafe o ho) hle
    | 2 => exact hstaged
    | _ + 3 => exact hstaged
  refine ⟨hflush, ?_, ?_⟩
  · intro len hlen
    refine ⟨?_, ?_, ?_⟩
    · intro o ho
      simp only [LogState.put, List.mem_cons] at ho
      cases ho with
      | inl he => simp only [LogState.put, he]; omega
      | inr hm => have := hstaged o hm; simp only [LogState.put]; omega
    · simp only [LogState.put]; omega
    · intro o ho
      exact hsafe o ho
  · exact ⟨hstaged, le_refl _, hstaged⟩

/-- Witness for C5 at a concrete well-formed state, crash point and put. -/
theorem batch_crash_safe_witness :
    (LogState.mk 10 10 [3] [3] 10).WF ∧
    ((LogState.mk 10 10 [3] [3] 10).batchSteps 1).indexSafe ∧
    ((LogState.mk 10 10 [3] [3] 10).put 5).WF :=
  ⟨by decide,
   (batch_crash_safe (LogState.mk 10 10 [3] [3] 10) (by decide)).1 1,
   (batch_crash_safe (LogState.mk 10 10 [3] [3] 10) (by decide)).2.1 5 (by decide)⟩

/-- Modelled from the spec: one hash-index chain entry — the record's key
and value together with the back-pointer to the previous chain head (the
hash-index and engine code are not among the included sources). -/
structure Entry where
  key : List Nat
  value : List Nat
  prev : Option Nat
deriving DecidableEq, Repr

/-- Modelled from the spec: the staged engine state — a fixed bucket count,
the bucket table of chain heads, and the append-only log of entries, an
entry's offset being its index in the log. -/
structure Engine where
  buckets : Nat
  table : List (Option Nat)
  log : List Entry
deriving DecidableEq, Repr

/-- Modelled from the spec: a deterministic, stable hash over the key
bytes; the spec fixes no concrete function, a polynomial hash is used. -/
def hashKey (k : List Nat) : Nat :=
  k.foldl (fun a b => a * 31 + b) 7

/-- Modelled from the spec: insert prepends a new chain head for the key's
bucket — the appended entry carries a back-pointer to the previous head and
the bucket is updated to point at the new entry. -/
def Engine.put (e : Engine) (k v : List Nat) : Engine :=
  let b := hashKey k % e.buckets
  let head : Option Nat :=
    match e.table[b]? with
    | some h => h
    | none => none
  { e with table := e.table.set b (some e.log.length),
           log := e.log ++ [Entry.mk k v head] }

/-- Modelled from the spec: walk a chain from a head offset, returning the
value of the FIRST entry whose key matches exactly; the fuel bounds the
traversal so that a corrupt chain yields `none` instead of looping. -/
def chainGet (log : List Entry) (k : List Nat) : Nat → Option Nat → Option (List Nat)
  | _, none => none
  | 0, some _ => none
  | fuel + 1, some o =>
    match log[o]? with
    | none => none
    | some en => if en.key = k then some en.value else chainGet log k fuel en.prev

/-- Modelled from the spec: lookup hashes the key to its bucket and walks
that bucket's chain. -/
def Engine.get (e : Engine) (k : List Nat) : Option (List Nat) :=
  match e.table[hashKey k % e.buckets]? with
  | some (some head) => chainGet e.log k (e.log.length + 1) (some head)
  | _ => none

/-- A `get` directly after a `put` of the same key returns the value just
put: the new chain head is found first. -/
theorem Engine.get_put (e : Engine) (k v : List Nat) (hb : 0 < e.buckets)
    (ht : e.table.length = e.buckets) : (e.put k v).get k = some v := by
  have hblt : hashKey k % e.buckets < e.table.length := by
    rw [ht]
    exact Nat.mod_lt _ hb
  simp only [Engine.put, Engine.get]
  rw [List.getElem?_set_self hblt]
  simp only [List.length_append, List.length_cons, List.length_nil]
  simp only [chainGet]
  rw [List.getElem?_append_right (le_refl _)]
  simp

/-- Claim C9: when a key is put twice with different values, `get` returns
the second (most recent) value and never the first, with no batch in
between — the second put's entry is the chain head and lookup returns the
first match on the chain. -/
theorem put_put_get (e : Engine) (k v1 v2 : List Nat)
    (hb : 0 < e.buckets) (ht : e.table.length = e.buckets) :
    ((e.put k v1).put k v2).get k = some v2 ∧
    (v1 ≠ v2 → ((e.put k v1).put k v2).get k ≠ some v1) := by
  have hb1 : 0 < (e.put k v1).buckets := hb
  have ht1 : (e.put k v1).table.length = (e.put k v1).buckets := by
    simp only [Engine.put, List.length_set]
    exact ht
  have hget := Engine.get_put (e.put k v1) k v2 hb1 ht1
  refine ⟨hget, ?_⟩
  intro hne hcontra
  rw [hget] at hcontra
  simp only [Option.some.injEq] at hcontra
  exact hne hcontra.symm

/-- Witness for C9 on a concrete one-bucket engine. -/
theorem put_put_get_witness :
    0 < (Engine.mk 1 [none] []).buckets ∧
    (Engine.mk 1 [none] []).table.length = (Engine.mk 1 [none] []).buckets ∧
    (((Engine.mk 1 [none] []).put [9] [1]).put [9] [2]).get [9] = some [2] :=
  ⟨by decide, by decide,
   (put_put_get (Engine.mk 1 [none] []) [9] [1] [2] (by decide) (by decide)).1⟩
